/-
Verification of the QQ bot outbound API client core (`src/index.ts`):
token cache, message-sequence tracker, authenticated request wrapper,
message dispatch and image upload.

The TypeScript source is shallowly embedded: module-level mutable state
(the token cache and the `msgSeqTracker` map) is passed explicitly, the
network is an explicit outcome parameter, and JavaScript string builtins
(`startsWith`, `split`, truthiness) are modelled over `List Char`.
-/
import Mathlib

namespace QQBot

/-! ## JavaScript primitives -/

/-- Model of JavaScript truthiness for an optional string argument:
`undefined` and the empty string are falsy (`msgId ? … : …`). -/
def jsTruthyStr : Option String → Bool
  | none => false
  | some s => !(s == "")

/-- Model of JavaScript `String.prototype.startsWith`. -/
def jsStartsWith (s p : String) : Bool :=
  p.data.isPrefixOf s.data

/-- Model of JavaScript `String.prototype.split` with a one-character
separator, on the underlying character list.  `split` never returns an
empty array: splitting the empty string yields `[[]]`. -/
def jsSplitChars (sep : Char) : List Char → List (List Char)
  | [] => [[]]
  | c :: rest =>
    let r := jsSplitChars sep rest
    if c = sep then [] :: r
    else
      match r with
      | [] => [[c]]
      | h :: t => (c :: h) :: t

/-- Model of JavaScript `imageData.split(sep)` (single-character separator). -/
def jsSplit (s : String) (sep : Char) : List String :=
  (jsSplitChars sep s.data).map (fun l => String.mk l)

theorem jsSplitChars_ne_nil (sep : Char) (l : List Char) : jsSplitChars sep l ≠ [] := by
  cases l with
  | nil => simp [jsSplitChars]
  | cons c rest =>
    simp only [jsSplitChars]
    split
    · simp
    · split
      · simp
      · simp

/-- Splitting a comma-free character list yields the single segment. -/
theorem jsSplitChars_of_not_mem (sep : Char) (l : List Char) (h : sep ∉ l) :
    jsSplitChars sep l = [l] := by
  induction l with
  | nil => rfl
  | cons c rest ih =>
    simp only [List.mem_cons, not_or] at h
    simp only [jsSplitChars]
    rw [if_neg (fun hc : c = sep => h.1 hc.symm), ih h.2]

/-- Splitting `m ++ sep :: p` where neither part contains the separator
yields exactly the two segments. -/
theorem jsSplitChars_append (sep : Char) (m p : List Char)
    (hm : sep ∉ m) (hp : sep ∉ p) :
    jsSplitChars sep (m ++ sep :: p) = [m, p] := by
  induction m with
  | nil => simp [jsSplitChars, jsSplitChars_of_not_mem sep p hp]
  | cons c rest ih =>
    simp only [List.mem_cons, not_or] at hm
    simp only [List.cons_append, jsSplitChars]
    rw [if_neg (fun hc : c = sep => hm.1 hc.symm), List.append_eq, ih hm.2]

/-! ## Sequence tracker (`msgSeqTracker : Map<string, number>`)

A JavaScript `Map` iterates in insertion order; it is modelled as a list of
key/value pairs in insertion order with no duplicate keys. -/

/-- The `msgSeqTracker` map state: entries in insertion order. -/
abbrev SeqTracker := List (String × Nat)

/-- Model of `Map.prototype.get`. -/
def mapGet (m : SeqTracker) (k : String) : Option Nat :=
  (m.find? (fun p => p.1 == k)).map Prod.snd

/-- Model of `Map.prototype.set`: an existing key keeps its insertion
position, a new key is appended. -/
def mapSet (m : SeqTracker) (k : String) (v : Nat) : SeqTracker :=
  if m.any (fun p => p.1 == k) then
    m.map (fun p => if p.1 == k then (k, v) else p)
  else
    m ++ [(k, v)]

/-- Model of `Map.prototype.delete`. -/
def mapDelete (m : SeqTracker) (k : String) : SeqTracker :=
  m.filter (fun p => p.1 != k)

/-- Model of `Array.from(msgSeqTracker.keys())`. -/
def trackerKeys (m : SeqTracker) : List String :=
  m.map Prod.fst

/-- Embedding of `getNextMsgSeq` (src/index.ts:89–104): read the counter
(default 0), increment and store it, then, if the map exceeds 1000
entries, delete the first 500 keys in iteration (= insertion) order. -/
def getNextMsgSeq (msgId : String) (m : SeqTracker) : Nat × SeqTracker :=
  let current := (mapGet m msgId).getD 0
  let next := current + 1
  let m1 := mapSet m msgId next
  let m2 :=
    if m1.length > 1000 then
      ((trackerKeys m1).take 500).foldl mapDelete m1
    else m1
  (next, m2)

/-- Run of successive `getNextMsgSeq` calls: result list and final state. -/
def runSeq (calls : List String) (m : SeqTracker) : List Nat × SeqTracker :=
  match calls with
  | [] => ([], m)
  | c :: cs =>
    let r := getNextMsgSeq c m
    let rest := runSeq cs r.2
    (r.1 :: rest.1, rest.2)

/-- Results a run observes for one identifier, in call order. -/
def resultsFor (id : String) (calls : List String) (m : SeqTracker) : List Nat :=
  ((calls.zip (runSeq calls m).1).filter (fun p => p.1 == id)).map Prod.snd

/-! ## Token cache (`getAccessToken`, src/index.ts:37–71)

The module-level `cachedToken` variable is passed and returned explicitly;
time (`Date.now()`) is a parameter; the single possible `fetch` of the
token endpoint is an explicit outcome parameter.  The returned `Nat`
counts how many requests the call issued to the token endpoint. -/

/-- The `cachedToken` record with fields `token` and `expiresAt`
(epoch milliseconds). -/
structure CachedToken where
  token : String
  expiresAt : Int
deriving DecidableEq, Repr

/-- Parsed body of the token endpoint with optional fields
`access_token` and `expires_in`. -/
structure TokenData where
  access_token : Option String
  expires_in : Option Int
deriving DecidableEq, Repr

/-- Outcome of the `fetch` of the token endpoint: transport failure,
a body that fails to parse, or a parsed body. -/
inductive TokenFetchOutcome where
  | transportFail (cause : String)
  | bodyUnparseable (cause : String)
  | body (data : TokenData)
deriving DecidableEq, Repr

/-- The three `throw new Error(...)` shapes of `getAccessToken`,
distinguished by their message template. -/
inductive TokenError where
  /-- Transport failure: the error wraps the underlying cause. -/
  | networkError (cause : String)
  /-- Unparseable response body: the error wraps the parse failure. -/
  | parseError (cause : String)
  /-- Parsed body without a usable token: the error carries the body. -/
  | authError (rawBody : TokenData)
deriving DecidableEq, Repr

/-- The refresh path of `getAccessToken` (src/index.ts:43–70): one request,
with failures leaving the cache untouched and success replacing it
wholesale.  JavaScript `!data.access_token` treats a missing and an empty
token alike as unusable. -/
def getAccessTokenRefresh (now : Int) (cached : Option CachedToken)
    (fetch : TokenFetchOutcome) :
    Except TokenError String × Option CachedToken × Nat :=
  match fetch with
  | .transportFail cause => (Except.error (.networkError cause), cached, 1)
  | .bodyUnparseable cause => (Except.error (.parseError cause), cached, 1)
  | .body data =>
    if jsTruthyStr data.access_token then
      let tok := data.access_token.getD ""
      let newCache : CachedToken :=
        { token := tok, expiresAt := now + (data.expires_in.getD 7200) * 1000 }
      (Except.ok tok, some newCache, 1)
    else
      (Except.error (.authError data), cached, 1)

/-- Embedding of `getAccessToken`: return the cached token with no request
when the cache is live with a fixed 5-minute margin, otherwise refresh.
Returns (result, new cache, count of requests issued). -/
def getAccessToken (now : Int) (cached : Option CachedToken)
    (fetch : TokenFetchOutcome) :
    Except TokenError String × Option CachedToken × Nat :=
  match cached with
  | some c =>
    if now < c.expiresAt - 5 * 60 * 1000 then
      (Except.ok c.token, some c, 0)
    else
      getAccessTokenRefresh now cached fetch
  | none => getAccessTokenRefresh now cached fetch

/-- Embedding of `clearTokenCache` (src/index.ts:76–78). -/
def clearTokenCache (_cached : Option CachedToken) : Option CachedToken :=
  none

/-! ## Authenticated request wrapper (`apiRequest`, src/index.ts:109–148) -/

/-- Duck-typed view of a parsed response body: the fields any caller of
`apiRequest` reads (`message` for errors, `id` for uploads, `url` for the
gateway), together with its `JSON.stringify` serialization. -/
structure RespData where
  message : Option String
  id : Option String
  url : Option String
  serialized : String
deriving DecidableEq, Repr

/-- Result of `await res.json()`. -/
inductive BodyResult where
  | unparseable (cause : String)
  | parsed (data : RespData)
deriving DecidableEq, Repr

/-- Outcome of the `fetch` inside `apiRequest`: transport failure, or a
response with a success flag (`res.ok`) and a body. -/
inductive HttpOutcome where
  | transportFail (cause : String)
  | response (ok : Bool) (body : BodyResult)
deriving DecidableEq, Repr

/-- The three `throw new Error(...)` shapes of `apiRequest`; each carries
the full message text exactly as the source builds it. -/
inductive ApiReqError where
  | networkError (text : String)
  | parseError (text : String)
  | apiError (text : String)
deriving DecidableEq, Repr

/-- Embedding of `apiRequest`: transport failure and parse failure are
classified before the status check; a non-success status with a parsed
body raises `API Error [path]: message-or-serialized-body`. -/
def apiRequest (path : String) (outcome : HttpOutcome) :
    Except ApiReqError RespData :=
  match outcome with
  | .transportFail cause =>
    Except.error (.networkError ("Network error [" ++ path ++ "]: " ++ cause))
  | .response ok body =>
    match body with
    | .unparseable cause =>
      Except.error (.parseError ("Failed to parse response [" ++ path ++ "]: " ++ cause))
    | .parsed data =>
      if ok then Except.ok data
      else
        Except.error
          (.apiError ("API Error [" ++ path ++ "]: " ++ data.message.getD data.serialized))

/-! ## Message dispatch (src/index.ts:161–207) -/

/-- Body of a text-message send request; `msg_id` is spread in only when
the optional `msgId` argument is truthy. -/
structure MsgBody where
  content : String
  msg_type : Nat
  msg_seq : Nat
  msg_id : Option String
deriving DecidableEq, Repr

/-- A dispatched HTTP request: method, path and text-message body. -/
structure SendRequest where
  method : String
  path : String
  body : MsgBody
deriving DecidableEq, Repr

/-- Embedding of `sendC2CMessage` (src/index.ts:161–174): consult the
sequence tracker only when `msgId` is truthy, and build the request body.
Returns the request together with the updated tracker. -/
def sendC2CMessage (openid content : String) (msgId : Option String)
    (m : SeqTracker) : SendRequest × SeqTracker :=
  let r := if jsTruthyStr msgId then getNextMsgSeq (msgId.getD "") m else (1, m)
  ({ method := "POST"
     path := "/v2/users/" ++ openid ++ "/messages"
     body :=
      { content := content
        msg_type := 0
        msg_seq := r.1
        msg_id := if jsTruthyStr msgId then msgId else none } }, r.2)

/-- Embedding of `sendGroupMessage` (src/index.ts:194–207): identical to
the C2C variant up to the endpoint path. -/
def sendGroupMessage (groupOpenid content : String) (msgId : Option String)
    (m : SeqTracker) : SendRequest × SeqTracker :=
  let r := if jsTruthyStr msgId then getNextMsgSeq (msgId.getD "") m else (1, m)
  ({ method := "POST"
     path := "/v2/groups/" ++ groupOpenid ++ "/messages"
     body :=
      { content := content
        msg_type := 0
        msg_seq := r.1
        msg_id := if jsTruthyStr msgId then msgId else none } }, r.2)

/-! ## Image upload (`uploadImage`, src/index.ts:241–265) -/

/-- Upload payload with the optional fields `url` and `file_data`. -/
structure UploadPayload where
  url : Option String
  file_data : Option String
deriving DecidableEq, Repr

/-- Classification of `imageData` into the upload payload (lines 246–255):
`http`-prefixed inputs become a URL reference, `data:`-prefixed inputs are
split on commas keeping element 1 (JavaScript `split(",")[1]`), anything
else is forwarded as-is as inline file data. -/
def uploadImagePayload (imageData : String) : UploadPayload :=
  if jsStartsWith imageData "http" then
    { url := some imageData, file_data := none }
  else if jsStartsWith imageData "data:" then
    { url := none, file_data := (jsSplit imageData ',').get? 1 }
  else
    { url := none, file_data := some imageData }

/-- Embedding of `uploadImage`: build the payload, POST it to `/v2/assets`
through `apiRequest`, and return `data.id` on success.  Returns the
constructed payload alongside the call result. -/
def uploadImage (imageData : String) (outcome : HttpOutcome) :
    UploadPayload × Except ApiReqError (Option String) :=
  (uploadImagePayload imageData,
    (apiRequest "/v2/assets" outcome).map (fun d => d.id))


/-! ## Concrete states and runs used to exercise the model -/

/-- The `i`-th distinct identifier used to fill the tracker: the letter a
repeated `i + 1` times (nonempty, and never equal to `"x"`). -/
def aKey (i : Nat) : String :=
  String.mk (List.replicate (i + 1) 'a')

/-- A full 1000-entry tracker state with every counter at 1. -/
def wideTracker : SeqTracker :=
  (List.range 1000).map (fun i => (aKey i, 1))

/-- An identifier distinct (by length) from every `wideTracker` key. -/
def freshKey : String := aKey 1000

/-- A run with two calls on `"x"` separated by calls on 1000 distinct
other identifiers — enough to evict `"x"` in between. -/
def evictingRun : List String :=
  "x" :: ((List.range 1000).map aKey ++ ["x"])

/-! ### Map-model lemmas -/

theorem mapGet_nil (k : String) : mapGet [] k = none := rfl

theorem mapGet_cons (p : String × Nat) (rest : SeqTracker) (k : String) :
    mapGet (p :: rest) k = if p.1 = k then some p.2 else mapGet rest k := by
  by_cases h : p.1 = k
  · rw [if_pos h, mapGet, List.find?_cons_of_pos _ (by simpa using h)]
    rfl
  · rw [if_neg h, mapGet, List.find?_cons_of_neg _ (by simpa using h)]
    rfl

theorem any_key_eq_true_iff (m : SeqTracker) (k : String) :
    (m.any (fun p => p.1 == k)) = true ↔ k ∈ trackerKeys m := by
  simp only [List.any_eq_true, beq_iff_eq, trackerKeys, List.mem_map]

theorem mapGet_eq_none (m : SeqTracker) (k : String) (h : k ∉ trackerKeys m) :
    mapGet m k = none := by
  induction m with
  | nil => rfl
  | cons p rest ih =>
    simp only [trackerKeys, List.map_cons, List.mem_cons, not_or] at h
    rw [mapGet_cons, if_neg (fun hh => h.1 hh.symm)]
    exact ih h.2

theorem mapGet_eq_of_mem (m : SeqTracker) (k : String) (v : Nat)
    (hnd : (trackerKeys m).Nodup) (hmem : (k, v) ∈ m) :
    mapGet m k = some v := by
  induction m with
  | nil => cases hmem
  | cons p rest ih =>
    simp only [trackerKeys, List.map_cons, List.nodup_cons] at hnd
    rcases List.mem_cons.1 hmem with h | h
    · rw [mapGet_cons, if_pos (congrArg Prod.fst h.symm)]
      exact congrArg (some ∘ Prod.snd) h.symm
    · have hne : p.1 ≠ k := fun hpk =>
        hnd.1 (hpk ▸ List.mem_map_of_mem Prod.fst h)
      rw [mapGet_cons, if_neg hne]
      exact ih hnd.2 h

theorem mapSet_of_not_mem (m : SeqTracker) (k : String) (v : Nat)
    (h : k ∉ trackerKeys m) : mapSet m k v = m ++ [(k, v)] := by
  rw [mapSet, if_neg]
  rw [any_key_eq_true_iff]
  exact h

theorem mapSet_of_mem (m : SeqTracker) (k : String) (v : Nat)
    (h : k ∈ trackerKeys m) :
    mapSet m k v = m.map (fun p => if p.1 == k then (k, v) else p) := by
  rw [mapSet, if_pos ((any_key_eq_true_iff m k).2 h)]

theorem trackerKeys_mapSet_of_mem (m : SeqTracker) (k : String) (v : Nat)
    (h : k ∈ trackerKeys m) :
    trackerKeys (mapSet m k v) = trackerKeys m := by
  rw [mapSet_of_mem m k v h]
  simp only [trackerKeys, List.map_map]
  apply List.map_congr_left
  intro p _
  by_cases hpk : p.1 = k
  · simp [hpk]
  · simp [hpk]

theorem mapGet_mapUpdate_self (m : SeqTracker) (k : String) (v : Nat)
    (h : k ∈ trackerKeys m) :
    mapGet (m.map (fun p => if p.1 == k then (k, v) else p)) k = some v := by
  induction m with
  | nil => cases h
  | cons p rest ih =>
    simp only [trackerKeys, List.map_cons, List.mem_cons] at h
    by_cases hpk : p.1 = k
    · have hhead : (if (p.1 == k) = true then (k, v) else p) = (k, v) := by simp [hpk]
      simp only [List.map_cons]
      rw [hhead, mapGet_cons, if_pos rfl]
    · have hhead : (if (p.1 == k) = true then (k, v) else p) = p := by simp [hpk]
      simp only [List.map_cons]
      rw [hhead, mapGet_cons, if_neg hpk]
      exact ih (h.resolve_left (fun hh => hpk hh.symm))

theorem mapGet_mapUpdate_ne (m : SeqTracker) (k k' : String) (v : Nat)
    (h : k' ≠ k) :
    mapGet (m.map (fun p => if p.1 == k then (k, v) else p)) k' = mapGet m k' := by
  induction m with
  | nil => rfl
  | cons p rest ih =>
    by_cases hpk : p.1 = k
    · have hhead : (if (p.1 == k) = true then (k, v) else p) = (k, v) := by simp [hpk]
      simp only [List.map_cons]
      rw [hhead, mapGet_cons, mapGet_cons, if_neg (fun hh : k = k' => h hh.symm),
        if_neg (fun hh : p.1 = k' => h (hpk.symm.trans hh).symm)]
      exact ih
    · have hhead : (if (p.1 == k) = true then (k, v) else p) = p := by simp [hpk]
      simp only [List.map_cons]
      rw [hhead, mapGet_cons, mapGet_cons]
      by_cases hpk' : p.1 = k'
      · rw [if_pos hpk', if_pos hpk']
      · rw [if_neg hpk', if_neg hpk']
        exact ih

theorem mapGet_append_sing_self (m : SeqTracker) (k : String) (v : Nat)
    (h : k ∉ trackerKeys m) :
    mapGet (m ++ [(k, v)]) k = some v := by
  induction m with
  | nil => rw [List.nil_append, mapGet_cons, if_pos rfl]
  | cons p rest ih =>
    simp only [trackerKeys, List.map_cons, List.mem_cons, not_or] at h
    rw [List.cons_append, mapGet_cons, if_neg (fun hh => h.1 hh.symm)]
    exact ih h.2

theorem mapGet_append_sing_ne (m : SeqTracker) (k k' : String) (v : Nat)
    (h : k' ≠ k) :
    mapGet (m ++ [(k, v)]) k' = mapGet m k' := by
  induction m with
  | nil => rw [List.nil_append, mapGet_cons, if_neg (fun hh : k = k' => h hh.symm)]
  | cons p rest ih =>
    rw [List.cons_append, mapGet_cons, mapGet_cons]
    by_cases hpk' : p.1 = k'
    · rw [if_pos hpk', if_pos hpk']
    · rw [if_neg hpk', if_neg hpk']
      exact ih

theorem mapGet_mapSet_self (m : SeqTracker) (k : String) (v : Nat) :
    mapGet (mapSet m k v) k = some v := by
  by_cases h : k ∈ trackerKeys m
  · rw [mapSet_of_mem m k v h]
    exact mapGet_mapUpdate_self m k v h
  · rw [mapSet_of_not_mem m k v h]
    exact mapGet_append_sing_self m k v h

theorem mapGet_mapSet_ne (m : SeqTracker) (k k' : String) (v : Nat)
    (h : k' ≠ k) : mapGet (mapSet m k v) k' = mapGet m k' := by
  by_cases hm : k ∈ trackerKeys m
  · rw [mapSet_of_mem m k v hm]
    exact mapGet_mapUpdate_ne m k k' v h
  · rw [mapSet_of_not_mem m k v hm]
    exact mapGet_append_sing_ne m k k' v h

theorem trackerKeys_append (a b : SeqTracker) :
    trackerKeys (a ++ b) = trackerKeys a ++ trackerKeys b := by
  simp [trackerKeys]

theorem trackerKeys_mapSet_of_not_mem (m : SeqTracker) (k : String) (v : Nat)
    (h : k ∉ trackerKeys m) :
    trackerKeys (mapSet m k v) = trackerKeys m ++ [k] := by
  rw [mapSet_of_not_mem m k v h, trackerKeys_append]
  rfl

theorem nodup_trackerKeys_mapSet (m : SeqTracker) (k : String) (v : Nat)
    (hnd : (trackerKeys m).Nodup) :
    (trackerKeys (mapSet m k v)).Nodup := by
  by_cases h : k ∈ trackerKeys m
  · rw [trackerKeys_mapSet_of_mem m k v h]
    exact hnd
  · rw [trackerKeys_mapSet_of_not_mem m k v h]
    rw [List.nodup_append]
    refine ⟨hnd, List.nodup_singleton k, ?_⟩
    intro a ha hb
    rw [List.mem_singleton] at hb
    exact h (hb ▸ ha)

theorem length_mapSet_of_mem (m : SeqTracker) (k : String) (v : Nat)
    (h : k ∈ trackerKeys m) : (mapSet m k v).length = m.length := by
  rw [mapSet_of_mem m k v h, List.length_map]

theorem length_mapSet_of_not_mem (m : SeqTracker) (k : String) (v : Nat)
    (h : k ∉ trackerKeys m) : (mapSet m k v).length = m.length + 1 := by
  rw [mapSet_of_not_mem m k v h, List.length_append, List.length_cons, List.length_nil]

theorem mapDelete_of_not_mem (m : SeqTracker) (k : String)
    (h : k ∉ trackerKeys m) : mapDelete m k = m := by
  rw [mapDelete, List.filter_eq_self]
  intro p hp
  simp only [bne_iff_ne, ne_eq]
  intro hpk
  exact h (hpk ▸ List.mem_map_of_mem Prod.fst hp)

/-- Folding `Map.delete` over the first `n` iteration-order keys removes
exactly the first `n` entries, provided keys are distinct. -/
theorem evict_take (m : SeqTracker) (hnd : (trackerKeys m).Nodup) (n : Nat) :
    (((trackerKeys m).take n).foldl mapDelete m) = m.drop n := by
  induction m generalizing n with
  | nil => cases n <;> rfl
  | cons p rest ih =>
    cases n with
    | zero => rfl
    | succ n =>
      simp only [trackerKeys, List.map_cons, List.nodup_cons] at hnd
      have hdel : mapDelete (p :: rest) p.1 = rest := by
        rw [mapDelete, List.filter_cons]
        rw [if_neg (by simp)]
        exact mapDelete_of_not_mem rest p.1 hnd.1
      simp only [trackerKeys, List.map_cons, List.take_succ_cons, List.foldl_cons,
        List.drop_succ_cons]
      rw [hdel]
      exact ih hnd.2 n

/-! ### Behaviour of a single `getNextMsgSeq` call -/

/-- A call on a fresh identifier when fewer than 1000 identifiers are
tracked appends the entry and returns 1. -/
theorem getNextMsgSeq_fresh (id : String) (m : SeqTracker)
    (hfresh : id ∉ trackerKeys m) (hlen : m.length < 1000) :
    getNextMsgSeq id m = (1, m ++ [(id, 1)]) := by
  simp only [getNextMsgSeq, mapGet_eq_none m id hfresh, Option.getD_none,
    mapSet_of_not_mem m id 1 hfresh]
  rw [if_neg (by simp only [List.length_append, List.length_cons, List.length_nil]; omega)]

/-- A call on an already-tracked identifier (with the reachable size bound)
increments its counter in place. -/
theorem getNextMsgSeq_mem (id : String) (m : SeqTracker)
    (hmem : id ∈ trackerKeys m) (hlen : m.length ≤ 1000) :
    getNextMsgSeq id m
      = ((mapGet m id).getD 0 + 1, mapSet m id ((mapGet m id).getD 0 + 1)) := by
  simp only [getNextMsgSeq]
  rw [if_neg (by rw [length_mapSet_of_mem m id _ hmem]; omega)]

/-- A call on a fresh identifier when exactly 1000 identifiers are tracked
inserts it and evicts the 500 oldest entries. -/
theorem getNextMsgSeq_evict (id : String) (m : SeqTracker)
    (hnd : (trackerKeys m).Nodup) (hfresh : id ∉ trackerKeys m)
    (hlen : m.length = 1000) :
    getNextMsgSeq id m = (1, m.drop 500 ++ [(id, 1)]) := by
  have hnd1 : (trackerKeys (m ++ [(id, 1)])).Nodup := by
    rw [← mapSet_of_not_mem m id 1 hfresh]
    exact nodup_trackerKeys_mapSet m id 1 hnd
  simp only [getNextMsgSeq, mapGet_eq_none m id hfresh, Option.getD_none,
    mapSet_of_not_mem m id 1 hfresh]
  rw [if_pos (by simp only [List.length_append, List.length_cons, List.length_nil]; omega),
    evict_take _ hnd1 500, List.drop_append_of_le_length (by omega)]

/-- The keys of the tracker stay distinct across any call. -/
theorem nodup_trackerKeys_getNextMsgSeq (id : String) (m : SeqTracker)
    (hnd : (trackerKeys m).Nodup) :
    (trackerKeys (getNextMsgSeq id m).2).Nodup := by
  have hnd1 : (trackerKeys (mapSet m id ((mapGet m id).getD 0 + 1))).Nodup :=
    nodup_trackerKeys_mapSet m id _ hnd
  simp only [getNextMsgSeq]
  split
  · refine List.Nodup.sublist ?_ hnd1
    rw [evict_take _ hnd1 500]
    exact (List.drop_sublist 500 _).map Prod.fst
  · exact hnd1

/-- The tracker never holds more than 1000 identifiers after a call
(the reachable-state bound). -/
theorem length_getNextMsgSeq_le (id : String) (m : SeqTracker)
    (hnd : (trackerKeys m).Nodup) (hlen : m.length ≤ 1000) :
    (getNextMsgSeq id m).2.length ≤ 1000 := by
  by_cases hmem : id ∈ trackerKeys m
  · rw [getNextMsgSeq_mem id m hmem hlen, length_mapSet_of_mem m id _ hmem]
    exact hlen
  · rcases Nat.lt_or_ge m.length 1000 with hlt | hge
    · rw [getNextMsgSeq_fresh id m hmem hlt]
      simp only [List.length_append, List.length_cons, List.length_nil]
      omega
    · rw [getNextMsgSeq_evict id m hnd hmem (by omega)]
      simp only [List.length_append, List.length_cons, List.length_nil, List.length_drop]
      omega

/-- A call that leaves the map within the 1000-entry bound performs no
eviction. -/
theorem getNextMsgSeq_noEvict (id : String) (m : SeqTracker)
    (h : (mapSet m id ((mapGet m id).getD 0 + 1)).length ≤ 1000) :
    getNextMsgSeq id m
      = ((mapGet m id).getD 0 + 1, mapSet m id ((mapGet m id).getD 0 + 1)) := by
  simp only [getNextMsgSeq]
  rw [if_neg (by omega)]

/-! ### Runs of calls -/

theorem runSeq_cons (c : String) (cs : List String) (m : SeqTracker) :
    runSeq (c :: cs) m
      = ((getNextMsgSeq c m).1 :: (runSeq cs (getNextMsgSeq c m).2).1,
         (runSeq cs (getNextMsgSeq c m).2).2) := rfl

theorem runSeq_append (a b : List String) (m : SeqTracker) :
    runSeq (a ++ b) m
      = ((runSeq a m).1 ++ (runSeq b (runSeq a m).2).1,
         (runSeq b (runSeq a m).2).2) := by
  induction a generalizing m with
  | nil => rfl
  | cons c cs ih =>
    simp only [List.cons_append, runSeq_cons, ih, List.nil_append]

/-- Repeated calls on one already-tracked identifier count up from its
stored counter, never evicting. -/
theorem runSeq_replicate (id : String) (n : Nat) (c : Nat) :
    runSeq (List.replicate n id) [(id, c)]
      = ((List.range n).map (fun k => c + k + 1), [(id, c + n)]) := by
  induction n generalizing c with
  | zero => rfl
  | succ n ih =>
    have hget : mapGet [(id, c)] id = some c := by
      rw [mapGet_cons, if_pos rfl]
    have hset : mapSet [(id, c)] id (c + 1) = [(id, c + 1)] := by
      rw [mapSet_of_mem _ _ _ (by simp [trackerKeys])]
      simp
    have hcall : getNextMsgSeq id [(id, c)] = (c + 1, [(id, c + 1)]) := by
      rw [getNextMsgSeq_mem id _ (by simp [trackerKeys]) (by simp), hget]
      simp only [Option.getD_some, hset]
    rw [List.replicate_succ, runSeq_cons, hcall]
    simp only [ih (c + 1), Prod.mk.injEq]
    refine ⟨?_, ?_⟩
    · rw [List.range_succ_eq_map, List.map_cons, List.map_map]
      simp only [List.cons.injEq]
      refine ⟨by simp, ?_⟩
      apply List.map_congr_left
      intro k _
      simp only [Function.comp_apply]
      omega
    · rw [show c + 1 + n = c + (n + 1) from by omega]

/-- A run of pairwise-distinct fresh identifiers that stays within the
bound appends one entry per call and returns 1 every time. -/
theorem runSeq_fresh_all (ids : List String) (m : SeqTracker)
    (hnd : ids.Nodup) (hfresh : ∀ i ∈ ids, i ∉ trackerKeys m)
    (hndm : (trackerKeys m).Nodup) (hlen : m.length + ids.length ≤ 1000) :
    runSeq ids m
      = (List.replicate ids.length 1, m ++ ids.map (fun i => (i, 1))) := by
  induction ids generalizing m with
  | nil => simp [runSeq]
  | cons i rest ih =>
    simp only [List.nodup_cons] at hnd
    simp only [List.length_cons] at hlen
    have hcall : getNextMsgSeq i m = (1, m ++ [(i, 1)]) :=
      getNextMsgSeq_fresh i m (hfresh i (List.mem_cons_self i rest)) (by omega)
    have hndm' : (trackerKeys (m ++ [(i, 1)])).Nodup := by
      rw [← mapSet_of_not_mem m i 1 (hfresh i (List.mem_cons_self i rest))]
      exact nodup_trackerKeys_mapSet m i 1 hndm
    have hfresh' : ∀ j ∈ rest, j ∉ trackerKeys (m ++ [(i, 1)]) := by
      intro j hj
      rw [trackerKeys_append]
      simp only [List.mem_append]
      rintro (hjm | hji)
      · exact hfresh j (List.mem_cons_of_mem i hj) hjm
      · simp only [trackerKeys, List.map_cons, List.map_nil, List.mem_singleton] at hji
        exact hnd.1 (hji ▸ hj)
    rw [runSeq_cons, hcall]
    simp only [ih (m ++ [(i, 1)]) hnd.2 hfresh' hndm'
      (by simp only [List.length_append, List.length_cons, List.length_nil]; omega)]
    simp only [List.length_cons, List.replicate_succ, List.map_cons, List.append_assoc,
      List.cons_append, List.nil_append, Prod.mk.injEq, and_self]

/-- Observed results of a run whose calls all returned the same value `a`:
filtering by identifier leaves `count id` copies of `a`. -/
theorem filter_zip_replicate (l : List String) (a : Nat) (id : String) :
    ((l.zip (List.replicate l.length a)).filter (fun p => p.1 == id)).map Prod.snd
      = List.replicate (l.count id) a := by
  induction l with
  | nil => rfl
  | cons c cs ih =>
    simp only [List.length_cons, List.replicate_succ, List.zip_cons_cons, List.filter_cons]
    by_cases h : c = id
    · subst h
      simp [ih, List.count_cons_self, List.replicate_succ]
    · rw [if_neg (by simpa using h), List.count_cons_of_ne (by simpa using (Ne.symm h)), ih]

/-! ### Facts about the concrete states -/

theorem aKey_injective : Function.Injective aKey := by
  intro i j h
  have h2 := congrArg String.length h
  simp only [aKey, String.length_mk, List.length_replicate] at h2
  omega

theorem trackerKeys_wideTracker :
    trackerKeys wideTracker = (List.range 1000).map aKey := by
  simp [trackerKeys, wideTracker, List.map_map, Function.comp]

theorem wideTracker_keys_nodup : (trackerKeys wideTracker).Nodup := by
  rw [trackerKeys_wideTracker]
  exact (List.nodup_range 1000).map aKey_injective

theorem freshKey_not_mem : freshKey ∉ trackerKeys wideTracker := by
  rw [trackerKeys_wideTracker]
  intro h
  rcases List.mem_map.1 h with ⟨i, hi, hik⟩
  have heq : i = 1000 := aKey_injective hik
  rw [List.mem_range] at hi
  omega

theorem wideTracker_length : wideTracker.length = 1000 := by
  simp [wideTracker]

theorem aKey_ne_x (i : Nat) : aKey i ≠ "x" := by
  cases i with
  | zero => decide
  | succ n =>
    intro h
    have h2 := congrArg String.length h
    simp only [aKey, String.length_mk, List.length_replicate] at h2
    have hx : "x".length = 1 := rfl
    omega

theorem x_not_mem_aKeys (l : List Nat) : "x" ∉ l.map aKey := by
  intro h
  rcases List.mem_map.1 h with ⟨i, _, hik⟩
  exact aKey_ne_x i hik

theorem aKeys_nodup (n : Nat) : ((List.range n).map aKey).Nodup :=
  (List.nodup_range n).map aKey_injective

/-! ### One-step unfolding of `resultsFor` and the no-eviction invariant -/

theorem mem_trackerKeys_mapSet (m : SeqTracker) (k a : String) (v : Nat)
    (h : a ∈ trackerKeys (mapSet m k v)) : a ∈ trackerKeys m ∨ a = k := by
  by_cases hk : k ∈ trackerKeys m
  · rw [trackerKeys_mapSet_of_mem m k v hk] at h
    exact Or.inl h
  · rw [trackerKeys_mapSet_of_not_mem m k v hk] at h
    rcases List.mem_append.1 h with h | h
    · exact Or.inl h
    · exact Or.inr (List.mem_singleton.1 h)

theorem resultsFor_cons (id c : String) (cs : List String) (m : SeqTracker) :
    resultsFor id (c :: cs) m
      = (if c = id then [(getNextMsgSeq c m).1] else [])
        ++ resultsFor id cs (getNextMsgSeq c m).2 := by
  by_cases h : c = id
  · simp [resultsFor, runSeq_cons, List.filter_cons, h]
  · simp [resultsFor, runSeq_cons, List.filter_cons, h]

/-- While at most 1000 distinct identifiers occur among the tracked keys
and the remaining calls, no eviction ever fires, and each identifier's
observed results continue its stored counter: cur+1, cur+2, …. -/
theorem resultsFor_no_eviction (calls : List String) (m : SeqTracker)
    (hnd : (trackerKeys m).Nodup)
    (hcard : (trackerKeys m ++ calls).toFinset.card ≤ 1000) :
    ∀ id, resultsFor id calls m
      = (List.range (calls.count id)).map
          (fun k => (mapGet m id).getD 0 + k + 1) := by
  induction calls generalizing m with
  | nil =>
    intro id
    rfl
  | cons c cs ih =>
    intro id
    have hm'nd : (trackerKeys (mapSet m c ((mapGet m c).getD 0 + 1))).Nodup :=
      nodup_trackerKeys_mapSet m c _ hnd
    have hsub : (trackerKeys (mapSet m c ((mapGet m c).getD 0 + 1)) ++ cs).toFinset
        ⊆ (trackerKeys m ++ c :: cs).toFinset := by
      intro a ha
      rw [List.mem_toFinset, List.mem_append] at ha
      rw [List.mem_toFinset, List.mem_append]
      rcases ha with ha | ha
      · rcases mem_trackerKeys_mapSet m c a _ ha with h | h
        · exact Or.inl h
        · exact Or.inr (h ▸ List.mem_cons_self c cs)
      · exact Or.inr (List.mem_cons_of_mem c ha)
    have hcard' :
        (trackerKeys (mapSet m c ((mapGet m c).getD 0 + 1)) ++ cs).toFinset.card ≤ 1000 :=
      le_trans (Finset.card_le_card hsub) hcard
    have hlen' : (mapSet m c ((mapGet m c).getD 0 + 1)).length ≤ 1000 := by
      have h1 : (mapSet m c ((mapGet m c).getD 0 + 1)).length
          = (trackerKeys (mapSet m c ((mapGet m c).getD 0 + 1))).length := by
        simp [trackerKeys]
      have h2 := List.toFinset_card_of_nodup hm'nd
      have h3 : (trackerKeys (mapSet m c ((mapGet m c).getD 0 + 1))).toFinset
          ⊆ (trackerKeys (mapSet m c ((mapGet m c).getD 0 + 1)) ++ cs).toFinset := by
        intro a ha
        rw [List.mem_toFinset] at ha
        rw [List.mem_toFinset, List.mem_append]
        exact Or.inl ha
      rw [h1, ← h2]
      exact le_trans (Finset.card_le_card h3) hcard'
    have hcall : getNextMsgSeq c m
        = ((mapGet m c).getD 0 + 1, mapSet m c ((mapGet m c).getD 0 + 1)) :=
      getNextMsgSeq_noEvict c m hlen'
    have ihm' := ih (mapSet m c ((mapGet m c).getD 0 + 1)) hm'nd hcard'
    rw [resultsFor_cons, hcall]
    by_cases hcid : c = id
    · subst hcid
      rw [if_pos rfl]
      simp only [ihm', mapGet_mapSet_self]
      rw [List.count_cons_self, List.range_succ_eq_map, List.map_cons, List.map_map]
      simp only [List.cons_append, List.nil_append, List.cons.injEq, Option.getD_some]
      refine ⟨by simp, ?_⟩
      apply List.map_congr_left
      intro k _
      simp only [Function.comp_apply]
      omega
    · rw [if_neg hcid]
      simp only [ihm', mapGet_mapSet_ne m c id _ (fun hh : id = c => hcid hh.symm)]
      rw [List.count_cons_of_ne (by simpa using fun hh : id = c => hcid hh.symm), List.nil_append]

theorem runSeq_nil (m : SeqTracker) : runSeq [] m = ([], m) := rfl

/-- Full computation of the evicting run: every call returns 1 — in
particular the second call on `"x"` returns 1 again, because the calls on
1000 other identifiers in between evicted its counter. -/
theorem evictingRun_results :
    (runSeq evictingRun []).1 = List.replicate 1002 1 := by
  have hA : getNextMsgSeq "x" [] = (1, [("x", 1)]) :=
    getNextMsgSeq_fresh "x" [] (by simp [trackerKeys]) (by simp)
  have hfresh999 : ∀ i ∈ (List.range 999).map aKey, i ∉ trackerKeys [("x", 1)] := by
    intro i hi
    simp only [trackerKeys, List.map_cons, List.map_nil, List.mem_singleton]
    rcases List.mem_map.1 hi with ⟨j, _, rfl⟩
    exact aKey_ne_x j
  have hB : runSeq ((List.range 999).map aKey) [("x", 1)]
      = (List.replicate 999 1,
         ("x", 1) :: ((List.range 999).map aKey).map (fun i => (i, 1))) := by
    have h := runSeq_fresh_all ((List.range 999).map aKey) [("x", 1)]
      (aKeys_nodup 999) hfresh999 (by simp [trackerKeys]) (by simp)
    rw [List.singleton_append] at h
    rw [h, List.length_map, List.length_range]
  have hkeys2 : trackerKeys (("x", 1) :: ((List.range 999).map aKey).map (fun i => (i, 1)))
      = "x" :: (List.range 999).map aKey := by
    simp [trackerKeys, List.map_map, Function.comp]
  have hnd2 :
      (trackerKeys (("x", 1) :: ((List.range 999).map aKey).map (fun i => (i, 1)))).Nodup := by
    rw [hkeys2]
    exact List.nodup_cons.2 ⟨x_not_mem_aKeys _, aKeys_nodup 999⟩
  have hfreshLast : aKey 999
      ∉ trackerKeys (("x", 1) :: ((List.range 999).map aKey).map (fun i => (i, 1))) := by
    rw [hkeys2]
    simp only [List.mem_cons, not_or]
    refine ⟨aKey_ne_x 999, ?_⟩
    intro hmem
    rcases List.mem_map.1 hmem with ⟨j, hj, hjk⟩
    have hj999 : j = 999 := aKey_injective hjk
    rw [List.mem_range] at hj
    omega
  have hC : getNextMsgSeq (aKey 999)
        (("x", 1) :: ((List.range 999).map aKey).map (fun i => (i, 1)))
      = (1, (((List.range 999).map aKey).map (fun i => (i, 1))).drop 499
            ++ [(aKey 999, 1)]) := by
    have h := getNextMsgSeq_evict (aKey 999) _ hnd2 hfreshLast (by simp)
    rw [h, show (500 : Nat) = 499 + 1 from rfl, List.drop_succ_cons]
  have hkeysdrop :
      trackerKeys ((((List.range 999).map aKey).map (fun i => (i, 1))).drop 499)
        = ((List.range 999).map aKey).drop 499 := by
    simp only [trackerKeys, List.map_drop, List.map_map]
    rw [show (Prod.fst ∘ (fun i : String => (i, 1)) ∘ aKey) = aKey from rfl]
  have hxm3 : "x" ∉ trackerKeys
      ((((List.range 999).map aKey).map (fun i => (i, 1))).drop 499 ++ [(aKey 999, 1)]) := by
    rw [trackerKeys_append, hkeysdrop]
    simp only [List.mem_append, not_or]
    constructor
    · intro hmem
      exact x_not_mem_aKeys (List.range 999) (List.mem_of_mem_drop hmem)
    · simp only [trackerKeys, List.map_cons, List.map_nil, List.mem_singleton]
      exact fun hh => aKey_ne_x 999 hh.symm
  have hD : getNextMsgSeq "x"
        ((((List.range 999).map aKey).map (fun i => (i, 1))).drop 499 ++ [(aKey 999, 1)])
      = (1, ((((List.range 999).map aKey).map (fun i => (i, 1))).drop 499
            ++ [(aKey 999, 1)]) ++ [("x", 1)]) :=
    getNextMsgSeq_fresh "x" _ hxm3 (by simp)
  have hsplit : evictingRun
      = "x" :: (((List.range 999).map aKey) ++ ([aKey 999] ++ ["x"])) := by
    rw [evictingRun, show (1000 : Nat) = 999 + 1 from rfl, List.range_succ, List.map_append]
    simp [List.append_assoc]
  rw [hsplit, runSeq_cons, hA]
  simp only [runSeq_append, hB, runSeq_cons, runSeq_nil, hC, hD]
  have hrepl : List.replicate 1002 1 = 1 :: (List.replicate 999 1 ++ ([1] ++ [1])) := by
    rw [show (1002 : Nat) = (999 + 2) + 1 from rfl, List.replicate_succ, List.replicate_add]
    rfl
  rw [hrepl]

theorem evictingRun_length : evictingRun.length = 1002 := by
  simp [evictingRun]

theorem evictingRun_count_x : evictingRun.count "x" = 2 := by
  rw [evictingRun, List.count_cons_self, List.count_append]
  rw [List.count_eq_zero.2 (x_not_mem_aKeys (List.range 1000))]
  rfl

/-! ## Claim theorems -/

/-- C1: when a `getNextMsgSeq` call brings the tracked-identifier count
above 1000 (the tracker holds 1000 distinct identifiers and the new one is
fresh), the oldest 500 entries in insertion order are evicted and the new
identifier inserted; afterwards the tracker holds at most 501 identifiers,
and the 500 most-recently-inserted prior identifiers retain their
counters. -/
theorem C1_eviction_policy (id : String) (m : SeqTracker)
    (hnd : (trackerKeys m).Nodup) (hfresh : id ∉ trackerKeys m)
    (hlen : m.length = 1000) :
    (getNextMsgSeq id m).2 = m.drop 500 ++ [(id, 1)]
    ∧ (getNextMsgSeq id m).2.length ≤ 501
    ∧ ∀ k v, (k, v) ∈ m.drop 500 → mapGet (getNextMsgSeq id m).2 k = some v := by
  have hev := getNextMsgSeq_evict id m hnd hfresh hlen
  have hkeysdrop : trackerKeys (m.drop 500) = (trackerKeys m).drop 500 := by
    simp [trackerKeys, List.map_drop]
  have hnddrop : (trackerKeys (m.drop 500) ++ [id]).Nodup := by
    rw [List.nodup_append]
    refine ⟨?_, List.nodup_singleton id, ?_⟩
    · rw [hkeysdrop]
      exact hnd.sublist (List.drop_sublist 500 _)
    · intro a ha hb
      rw [List.mem_singleton] at hb
      subst hb
      rw [hkeysdrop] at ha
      exact hfresh (List.mem_of_mem_drop ha)
  refine ⟨by rw [hev], ?_, ?_⟩
  · rw [hev]
    simp only [List.length_append, List.length_drop, List.length_cons, List.length_nil, hlen]
    omega
  · intro k v hkv
    rw [hev]
    apply mapGet_eq_of_mem
    · rw [trackerKeys_append]
      exact hnddrop
    · exact List.mem_append_left _ hkv

/-- Witness: the C1 theorem applied to a concrete full tracker of 1000
distinct identifiers and a concrete fresh identifier. -/
theorem C1_eviction_policy_witness :
    (trackerKeys wideTracker).Nodup ∧ freshKey ∉ trackerKeys wideTracker
    ∧ wideTracker.length = 1000
    ∧ (getNextMsgSeq freshKey wideTracker).2.length ≤ 501 :=
  ⟨wideTracker_keys_nodup, freshKey_not_mem, wideTracker_length,
    (C1_eviction_policy freshKey wideTracker wideTracker_keys_nodup freshKey_not_mem
      wideTracker_length).2.1⟩

/-- C2: in a run consisting only of `getNextMsgSeq` calls on one and the
same identifier, starting from the empty tracker, the results are exactly
1, 2, …, n — the n-th call returns n. -/
theorem C2_same_id_counts_up (id : String) (n : Nat) :
    (runSeq (List.replicate n id) []).1 = (List.range n).map (fun k => k + 1) := by
  cases n with
  | zero => rfl
  | succ n =>
    have hfirst : getNextMsgSeq id [] = (1, [(id, 1)]) :=
      getNextMsgSeq_fresh id [] (by simp [trackerKeys]) (by simp)
    rw [List.replicate_succ, runSeq_cons, hfirst]
    simp only [runSeq_replicate id n 1]
    rw [List.range_succ_eq_map, List.map_cons, List.map_map]
    simp only [List.cons.injEq]
    refine ⟨by simp, ?_⟩
    apply List.map_congr_left
    intro k _
    simp only [Function.comp_apply]
    omega

/-- C3 counterexample: the claim fails as stated.  In the concrete run
`evictingRun` — two calls on `"x"` with calls on 1000 distinct other
identifiers in between — the results observed for `"x"` are [1, 1], not
the strictly increasing sequence [1, 2]: the interleaved calls evicted
the counter of `"x"`. -/
theorem C3_counterexample_eviction_perturbs :
    resultsFor "x" evictingRun [] = [1, 1]
    ∧ evictingRun.count "x" = 2
    ∧ resultsFor "x" evictingRun []
        ≠ (List.range (evictingRun.count "x")).map (fun k => k + 1) := by
  have hres : resultsFor "x" evictingRun [] = [1, 1] := by
    rw [resultsFor, evictingRun_results,
      show (1002 : Nat) = evictingRun.length from evictingRun_length.symm,
      filter_zip_replicate, evictingRun_count_x]
    rfl
  refine ⟨hres, evictingRun_count_x, ?_⟩
  rw [hres, evictingRun_count_x]
  decide

/-- C3 (amended): for every interleaved run in which at most 1000 distinct
identifiers occur (so the eviction sweep never fires), the results
observed for each identifier form that identifier's own sequence
1, 2, 3, …; interleaved calls on other identifiers never perturb it. -/
theorem C3_amended_interleaving_independent (calls : List String)
    (hcard : calls.toFinset.card ≤ 1000) (id : String) :
    resultsFor id calls [] = (List.range (calls.count id)).map (fun k => k + 1) := by
  have h := resultsFor_no_eviction calls []
    (by simp [trackerKeys]) (by simpa [trackerKeys] using hcard) id
  rw [h]
  apply List.map_congr_left
  intro k _
  rw [mapGet_nil]
  simp

/-- Witness: the amended C3 theorem applied to the concrete interleaved
run x, y, x, in which the results for x are [1, 2]. -/
theorem C3_amended_witness :
    (["x", "y", "x"].toFinset.card ≤ 1000)
    ∧ resultsFor "x" ["x", "y", "x"] []
        = (List.range (["x", "y", "x"].count "x")).map (fun k => k + 1) :=
  ⟨by decide, C3_amended_interleaving_independent ["x", "y", "x"] (by decide) "x"⟩

/-- C4: if a live cached credential exists and the current time is more
than 5 minutes (300000 ms) before its stored expiry, `getAccessToken`
returns the cached token, issues no request, and leaves the cached
credential unchanged. -/
theorem C4_cache_hit (now : Int) (c : CachedToken) (fetch : TokenFetchOutcome)
    (h : now < c.expiresAt - 300000) :
    getAccessToken now (some c) fetch = (Except.ok c.token, some c, 0) := by
  simp only [getAccessToken]
  rw [if_pos (by omega)]

/-- Witness: the C4 theorem applied at a concrete time well before the
cached expiry. -/
theorem C4_cache_hit_witness :
    ((0 : Int) < 1000000 - 300000)
    ∧ getAccessToken 0 (some ⟨"T", 1000000⟩) (.body ⟨some "T2", some 100⟩)
        = (Except.ok "T", some ⟨"T", 1000000⟩, 0) :=
  ⟨by decide, C4_cache_hit 0 ⟨"T", 1000000⟩ (.body ⟨some "T2", some 100⟩) (by decide)⟩

/-- C5 counterexample: a call 60 seconds before the cached expiry — that
is, strictly less than 5 minutes before it — does trigger a network call
and does not return the cached token: the margin works in the opposite
direction from the claim (within 5 minutes of expiry the code refreshes). -/
theorem C5_counterexample_margin_direction :
    ((1000000 : Int) - 940000 < 300000)
    ∧ (getAccessToken 940000 (some ⟨"T1", 1000000⟩)
        (.body ⟨some "T2", some 100⟩)).2.2 = 1
    ∧ (getAccessToken 940000 (some ⟨"T1", 1000000⟩)
        (.body ⟨some "T2", some 100⟩)).1 = Except.ok "T2"
    ∧ Except.ok "T2" ≠ (Except.ok "T1" : Except TokenError String) := by
  refine ⟨by decide, rfl, rfl, ?_⟩
  intro h
  exact absurd (Except.ok.inj h) (by decide)

/-- C5 (amended): a call occurring strictly more than 5 minutes before
the cached expiry triggers no network call and returns the cached token
unchanged; a call occurring after expiry (or with no cache) triggers
exactly one refresh request to the token endpoint. -/
theorem C5_amended_cache_margin (now : Int) (cached : Option CachedToken)
    (fetch : TokenFetchOutcome) :
    (∀ c, cached = some c → now < c.expiresAt - 300000 →
        getAccessToken now cached fetch = (Except.ok c.token, some c, 0))
    ∧ ((cached = none ∨ ∃ c, cached = some c ∧ c.expiresAt ≤ now) →
        (getAccessToken now cached fetch).2.2 = 1) := by
  constructor
  · rintro c rfl h
    simp only [getAccessToken]
    rw [if_pos (by omega)]
  · rintro (rfl | ⟨c, rfl, h⟩)
    · cases fetch with
      | transportFail cause => rfl
      | bodyUnparseable cause => rfl
      | body d =>
        simp only [getAccessToken, getAccessTokenRefresh]
        split <;> rfl
    · simp only [getAccessToken]
      rw [if_neg (by omega)]
      cases fetch with
      | transportFail cause => rfl
      | bodyUnparseable cause => rfl
      | body d =>
        simp only [getAccessTokenRefresh]
        split <;> rfl

/-- Witness: the amended C5 theorem applied at a concrete fresh-cache
call (no request) and a concrete expired-cache call (one request). -/
theorem C5_amended_witness :
    getAccessToken 0 (some ⟨"T", 1000000⟩) (.body ⟨some "T2", none⟩)
      = (Except.ok "T", some ⟨"T", 1000000⟩, 0)
    ∧ (getAccessToken 2000000 (some ⟨"T", 1000000⟩) (.body ⟨some "T2", none⟩)).2.2 = 1 :=
  ⟨(C5_amended_cache_margin 0 (some ⟨"T", 1000000⟩) (.body ⟨some "T2", none⟩)).1
      ⟨"T", 1000000⟩ rfl (by decide),
   (C5_amended_cache_margin 2000000 (some ⟨"T", 1000000⟩) (.body ⟨some "T2", none⟩)).2
      (Or.inr ⟨⟨"T", 1000000⟩, rfl, by decide⟩)⟩

/-- C6: when no fresh cached credential exists, `getAccessToken` issues
exactly one request; a transport failure yields a NetworkError with the
underlying cause, an unparseable body a ResponseParseError, and a parsed
body lacking a token an AuthError carrying the raw body; every failure
leaves the cache unchanged; on success the cache is replaced wholesale
with the returned token and expiry now + declared lifetime (defaulting to
7200 s), and that token is returned. -/
theorem C6_refresh_behaviour (now : Int) (cached : Option CachedToken)
    (hstale : ∀ c, cached = some c → c.expiresAt - 300000 ≤ now) :
    (∀ fetch, (getAccessToken now cached fetch).2.2 = 1)
    ∧ (∀ cause, getAccessToken now cached (.transportFail cause)
        = (Except.error (.networkError cause), cached, 1))
    ∧ (∀ cause, getAccessToken now cached (.bodyUnparseable cause)
        = (Except.error (.parseError cause), cached, 1))
    ∧ (∀ d, d.access_token = none →
        getAccessToken now cached (.body d)
          = (Except.error (.authError d), cached, 1))
    ∧ (∀ d tok, d.access_token = some tok → tok ≠ "" →
        getAccessToken now cached (.body d)
          = (Except.ok tok,
             some ⟨tok, now + (d.expires_in.getD 7200) * 1000⟩, 1)) := by
  have hpath : ∀ fetch, getAccessToken now cached fetch
      = getAccessTokenRefresh now cached fetch := by
    intro fetch
    match cached, hstale with
    | none, _ => rfl
    | some c, hstale =>
      simp only [getAccessToken]
      rw [if_neg (by have := hstale c rfl; omega)]
  refine ⟨?_, ?_, ?_, ?_, ?_⟩
  · intro fetch
    rw [hpath]
    cases fetch with
    | transportFail cause => rfl
    | bodyUnparseable cause => rfl
    | body d =>
      simp only [getAccessTokenRefresh]
      split <;> rfl
  · intro cause
    rw [hpath]
    rfl
  · intro cause
    rw [hpath]
    rfl
  · intro d hd
    rw [hpath]
    simp [getAccessTokenRefresh, jsTruthyStr, hd]
  · intro d tok hd htok
    rw [hpath]
    simp [getAccessTokenRefresh, jsTruthyStr, hd, htok]

/-- Witness: the C6 theorem applied with an empty cache to a concrete
successful refresh (default lifetime) and a concrete transport failure. -/
theorem C6_refresh_witness :
    getAccessToken 5 none (.body ⟨some "TOK", none⟩)
      = (Except.ok "TOK", some ⟨"TOK", 5 + 7200 * 1000⟩, 1)
    ∧ getAccessToken 5 none (.transportFail "ECONNRESET")
      = (Except.error (.networkError "ECONNRESET"), none, 1) := by
  have h := C6_refresh_behaviour 5 none (fun c hc => by cases hc)
  refine ⟨?_, h.2.1 "ECONNRESET"⟩
  have h2 := h.2.2.2.2 ⟨some "TOK", none⟩ "TOK" rfl (by decide)
  simpa using h2

/-- C7: a non-success HTTP status with a parseable JSON body makes
`apiRequest` fail with an ApiError whose text embeds the request path and
includes the platform's message field when present, otherwise the raw
serialized body; an unparseable body fails with a ResponseParseError
regardless of the HTTP status. -/
theorem C7_api_error_classification (path : String) (d : RespData) :
    (apiRequest path (.response false (.parsed d))
      = Except.error
          (.apiError ("API Error [" ++ path ++ "]: " ++ d.message.getD d.serialized)))
    ∧ (∃ pre post, "API Error [" ++ path ++ "]: " ++ d.message.getD d.serialized
        = pre ++ path ++ post)
    ∧ (∀ msgText, d.message = some msgText →
        ∃ pre, "API Error [" ++ path ++ "]: " ++ d.message.getD d.serialized
          = pre ++ msgText)
    ∧ (d.message = none →
        "API Error [" ++ path ++ "]: " ++ d.message.getD d.serialized
          = "API Error [" ++ path ++ "]: " ++ d.serialized)
    ∧ (∀ ok cause, apiRequest path (.response ok (.unparseable cause))
        = Except.error
            (.parseError ("Failed to parse response [" ++ path ++ "]: " ++ cause))) := by
  refine ⟨rfl,
    ⟨"API Error [", "]: " ++ d.message.getD d.serialized, by
      rw [String.append_assoc, String.append_assoc]⟩,
    ?_, ?_, ?_⟩
  · intro msgText h
    exact ⟨"API Error [" ++ path ++ "]: ", by rw [h]; rfl⟩
  · intro h
    rw [h]
    rfl
  · intro ok cause
    rfl

/-- Witness: the C7 theorem applied to a concrete failing request whose
body carries the message "bad request". -/
theorem C7_api_error_witness :
    apiRequest "/v2/users/u/messages"
        (.response false (.parsed ⟨some "bad request", none, none, "RAW"⟩))
      = Except.error (.apiError "API Error [/v2/users/u/messages]: bad request")
    ∧ ((⟨some "bad request", none, none, "RAW"⟩ : RespData).message
        = some "bad request") := by
  have h := (C7_api_error_classification "/v2/users/u/messages"
    ⟨some "bad request", none, none, "RAW"⟩).1
  exact ⟨h, rfl⟩

/-- C8 counterexample: the claim fails as stated.  With the empty string
as `replyToId` — syntactically given, but falsy in JavaScript — the C2C
send consults no tracker and emits `msg_seq` 1 with no `msg_id`, even
though the tracker's next value for the empty string would be 6. -/
theorem C8_counterexample_empty_replyToId :
    ((sendC2CMessage "u" "hi" (some "") [("", 5)]).1.body.msg_id = none)
    ∧ ((sendC2CMessage "u" "hi" (some "") [("", 5)]).1.body.msg_seq = 1)
    ∧ (getNextMsgSeq "" [("", 5)]).1 = 6
    ∧ ((sendC2CMessage "u" "hi" (some "") [("", 5)]).2 = [("", 5)])
    ∧ ¬((sendC2CMessage "u" "hi" (some "") [("", 5)]).1.body.msg_id = some ""
        ∧ (sendC2CMessage "u" "hi" (some "") [("", 5)]).1.body.msg_seq
            = (getNextMsgSeq "" [("", 5)]).1) := by
  refine ⟨rfl, rfl, rfl, rfl, ?_⟩
  intro hcl
  exact absurd hcl.1 (by decide)

/-- C8 (amended): for direct (C2C) and group text sends, a non-empty
`replyToId` yields a body with `msg_id` = replyToId and `msg_seq` = the
tracker's next value for it, advancing the tracker; an absent or empty
`replyToId` yields `msg_seq` 1, no `msg_id`, and an untouched tracker. -/
theorem C8_amended_reply_fields (target content r : String) (m : SeqTracker)
    (hr : r ≠ "") :
    ((sendC2CMessage target content (some r) m).1.body.msg_id = some r
      ∧ (sendC2CMessage target content (some r) m).1.body.msg_seq
          = (getNextMsgSeq r m).1
      ∧ (sendC2CMessage target content (some r) m).2 = (getNextMsgSeq r m).2)
    ∧ ((sendGroupMessage target content (some r) m).1.body.msg_id = some r
      ∧ (sendGroupMessage target content (some r) m).1.body.msg_seq
          = (getNextMsgSeq r m).1
      ∧ (sendGroupMessage target content (some r) m).2 = (getNextMsgSeq r m).2)
    ∧ (∀ o, o = none ∨ o = some "" →
        (sendC2CMessage target content o m).1.body.msg_seq = 1
        ∧ (sendC2CMessage target content o m).1.body.msg_id = none
        ∧ (sendC2CMessage target content o m).2 = m
        ∧ (sendGroupMessage target content o m).1.body.msg_seq = 1
        ∧ (sendGroupMessage target content o m).1.body.msg_id = none
        ∧ (sendGroupMessage target content o m).2 = m) := by
  have htr : jsTruthyStr (some r) = true := by simp [jsTruthyStr, hr]
  refine ⟨?_, ?_, ?_⟩
  · simp [sendC2CMessage, htr]
  · simp [sendGroupMessage, htr]
  · rintro o (rfl | rfl) <;> simp [sendC2CMessage, sendGroupMessage, jsTruthyStr]

/-- Witness: the amended C8 theorem applied to a concrete direct text
send with reply id "m1" on the empty tracker. -/
theorem C8_amended_witness :
    (("m1" : String) ≠ "")
    ∧ (sendC2CMessage "u" "hi" (some "m1") []).1.body.msg_id = some "m1"
    ∧ (sendC2CMessage "u" "hi" (some "m1") []).1.body.msg_seq
        = (getNextMsgSeq "m1" []).1 :=
  ⟨by decide,
   (C8_amended_reply_fields "u" "hi" "m1" [] (by decide)).1.1,
   (C8_amended_reply_fields "u" "hi" "m1" [] (by decide)).1.2.1⟩

theorem nil_isPrefixOf (t : List Char) : List.isPrefixOf [] t = true := by
  cases t <;> rfl

theorem isPrefixOf_append_self (l t : List Char) : l.isPrefixOf (l ++ t) = true := by
  induction l with
  | nil => exact nil_isPrefixOf t
  | cons a as ih => simp [List.isPrefixOf, ih]

theorem isPrefixOf_exists (l₁ l₂ : List Char) (h : l₁.isPrefixOf l₂ = true) :
    ∃ t, l₂ = l₁ ++ t := by
  induction l₁ generalizing l₂ with
  | nil => exact ⟨l₂, rfl⟩
  | cons a as ih =>
    cases l₂ with
    | nil => simp [List.isPrefixOf] at h
    | cons b bs =>
      simp only [List.isPrefixOf, Bool.and_eq_true, beq_iff_eq] at h
      rcases h with ⟨hab, hrest⟩
      subst hab
      rcases ih bs hrest with ⟨t, rfl⟩
      exact ⟨t, rfl⟩

/-- C9 counterexample: the claim fails as stated.  For the data URI
"data:a,b,c" the code forwards only the segment between the first and
second commas ("b"), not the whole remainder after the first comma
("b,c"): JavaScript split stops the kept element at the next comma. -/
theorem C9_counterexample_second_segment :
    (uploadImagePayload "data:a,b,c").file_data = some "b"
    ∧ (uploadImagePayload "data:a,b,c").file_data ≠ some "b,c" := by
  refine ⟨by decide, by decide⟩

/-- C9 (amended): uploadImage classifies by prefix.  An http-prefixed
input is sent as a URL-reference payload of the whole input; a
data:-prefixed input has the portion between the first comma and the
following comma (or end of string) sent as inline file data; any other
input is sent unmodified as inline file data; on success the id field of
the parsed response is returned. -/
theorem C9_amended_upload_classification :
    (∀ s, jsStartsWith s "http" = true →
      uploadImagePayload s = { url := some s, file_data := none })
    ∧ (∀ mdat payload, ',' ∉ mdat.data → ',' ∉ payload.data →
        uploadImagePayload ("data:" ++ mdat ++ "," ++ payload)
          = { url := none, file_data := some payload })
    ∧ (∀ s, jsStartsWith s "http" = false → jsStartsWith s "data:" = false →
        uploadImagePayload s = { url := none, file_data := some s })
    ∧ (∀ s d, (uploadImage s (.response true (.parsed d))).2 = Except.ok d.id) := by
  refine ⟨?_, ?_, ?_, ?_⟩
  · intro s h
    rw [uploadImagePayload, if_pos h]
  · intro mdat payload hm hp
    have hsdata : ("data:" ++ mdat ++ "," ++ payload).data
        = ("data:".data ++ mdat.data) ++ (',' :: payload.data) := by
      simp [String.data_append, List.append_assoc]
    have hcomma : ',' ∉ ("data:".data ++ mdat.data) := by
      intro hmem
      rcases List.mem_append.1 hmem with hmem | hmem
      · exact (by decide : ',' ∉ "data:".data) hmem
      · exact hm hmem
    have hhttp : jsStartsWith ("data:" ++ mdat ++ "," ++ payload) "http" = false := by
      rw [jsStartsWith, hsdata]
      rfl
    have hdat : jsStartsWith ("data:" ++ mdat ++ "," ++ payload) "data:" = true := by
      rw [jsStartsWith, hsdata, List.append_assoc]
      exact isPrefixOf_append_self _ _
    have hsplit : jsSplit ("data:" ++ mdat ++ "," ++ payload) ','
        = [String.mk ("data:".data ++ mdat.data), payload] := by
      rw [jsSplit, hsdata, jsSplitChars_append ',' _ _ hcomma hp]
      rfl
    rw [uploadImagePayload]
    rw [if_neg (by rw [hhttp]; exact Bool.false_ne_true), if_pos hdat, hsplit]
    rfl
  · intro s h1 h2
    rw [uploadImagePayload, if_neg (by rw [h1]; exact Bool.false_ne_true),
      if_neg (by rw [h2]; exact Bool.false_ne_true)]
  · intro s d
    rfl

/-- Witness: the amended C9 theorem applied to the concrete data URI
for inline base64 image data. -/
theorem C9_amended_witness :
    (',' ∉ "image/png;base64".data) ∧ (',' ∉ "AAAA".data)
    ∧ uploadImagePayload ("data:" ++ "image/png;base64" ++ "," ++ "AAAA")
        = { url := none, file_data := some "AAAA" } :=
  ⟨by decide, by decide,
    C9_amended_upload_classification.2.1 "image/png;base64" "AAAA"
      (by decide) (by decide)⟩

/-- C10: a data:-prefixed input containing no comma does not fail:
splitting yields no second element, so the payload carries neither
file data nor a url — the upload request body holds no image data. -/
theorem C10_dataUri_without_comma (s : String)
    (hpre : jsStartsWith s "data:" = true) (hnc : ',' ∉ s.data) :
    uploadImagePayload s = { url := none, file_data := none } := by
  rcases isPrefixOf_exists "data:".data s.data hpre with ⟨t, ht⟩
  have hhttp : jsStartsWith s "http" = false := by
    rw [jsStartsWith, ht]
    rfl
  have hsplit : jsSplit s ',' = [s] := by
    rw [jsSplit, jsSplitChars_of_not_mem ',' s.data hnc]
    rfl
  rw [uploadImagePayload, if_neg (by rw [hhttp]; exact Bool.false_ne_true),
    if_pos hpre, hsplit]
  rfl

/-- Witness: the C10 theorem applied to a concrete comma-free data URI. -/
theorem C10_dataUri_witness :
    jsStartsWith "data:image/png;base64" "data:" = true
    ∧ (',' ∉ "data:image/png;base64".data)
    ∧ uploadImagePayload "data:image/png;base64"
        = { url := none, file_data := none } :=
  ⟨by decide, by decide,
    C10_dataUri_without_comma "data:image/png;base64" (by decide) (by decide)⟩

end QQBot
